import Mathlib

/-!
# Verification of the `apitypings` generator (scripts/apitypings/main.go)

A shallow embedding of the TypeScript-type generator: Go types become the
inductive `GoType`, package-level objects become `GoObject`, and the main
functions (`typescriptType`, `buildStruct`, `buildUnion`, `generateAll`,
`TypescriptTypes.String` — here `TypescriptTypes.render`) are translated
line-for-line from the Go source.  Fallible Go functions returning
`(T, error)` become `Except String T`.

Modelling conventions, stated once:
* `go/types` guarantees `Named.Underlying()` is never itself a `*types.Named`,
  so the `named` constructor stores the already-resolved underlying type and
  `GoType.underlyingType` takes a single step.
* Struct tags are stored pre-parsed (`Option (name × options)`), mirroring what
  `structtag.Parse` + `Get` deliver; a present-but-empty tag value such as
  `json:""` makes `structtag.Parse` fail (a panic in the Go code) and is not
  modelled.
* `GoType.typeString` models `types.Type.String()`; for `struct`/`interface`
  literals (used only inside error messages and never branched on) the
  elaborated Go spelling is abbreviated.
* Go map buckets are modelled as association lists; package scopes have
  unique names, which theorems carry as `Nodup` hypotheses where needed.
  Go iterates `Scope().Names()` in sorted order; bucket *contents* are
  iteration-order independent, and the final document sorts keys anyway.
-/

/-! ## Kernel-computable string operations

Lean core's `String.splitOn`, `trim`, `startsWith`, `intercalate`,
`dropRightWhile` and the `String` order are implemented with iterators or
well-founded recursion and do not reduce inside the kernel, so the embedding
uses the following structurally-recursive equivalents over `String.data`.
Each mirrors the corresponding Go `strings` function (byte-wise in Go,
code-point-wise here — identical on the ASCII data this generator handles). -/

/-- `strings.Join` / separator-free concatenation. -/
def strJoin : List String → String
  | [] => ""
  | s :: ss => s ++ strJoin ss

/-- `strings.Join(xs, sep)`. -/
def strIntercalate (sep : String) : List String → String
  | [] => ""
  | [x] => x
  | x :: xs => x ++ sep ++ strIntercalate sep xs

/-- Drop the longest suffix of characters satisfying `p`
(`strings.TrimRight` with a character-set predicate). -/
def strDropRightWhile (s : String) (p : Char → Bool) : String :=
  ⟨(s.data.reverse.dropWhile p).reverse⟩

/-- `strings.TrimSpace` (ASCII whitespace, which is all that occurs here). -/
def strTrim (s : String) : String :=
  ⟨((s.data.dropWhile Char.isWhitespace).reverse.dropWhile Char.isWhitespace).reverse⟩

/-- `strings.HasPrefix`. -/
def strStartsWith (s pre : String) : Bool :=
  s.data.take pre.data.length == pre.data

/-- `strings.TrimPrefix`'s drop step, by character count. -/
def strDrop (s : String) (n : Nat) : String :=
  ⟨s.data.drop n⟩

/-- The tail of `s` after the first (leftmost) occurrence of `pat`, or `none`
when `pat` does not occur.  (`pat` is a non-empty literal at every use site.) -/
def afterFirst (pat : List Char) : List Char → Option (List Char)
  | [] => none
  | c :: rest =>
    if (c :: rest).take pat.length == pat then some ((c :: rest).drop pat.length)
    else afterFirst pat rest

/-- `strings.Split(s, ",")` restricted to a single-character separator. -/
def splitCommas : List Char → List (List Char)
  | [] => [[]]
  | c :: rest =>
    if c == ',' then [] :: splitCommas rest
    else
      match splitCommas rest with
      | [] => [[c]]
      | g :: gs => (c :: g) :: gs

/-- `strings.Contains` (used only to state counterexamples). -/
def containsSub (s pat : String) : Bool :=
  (afterFirst pat.data s.data).isSome

/-- Byte-wise (= code-point-wise on ASCII) lexicographic comparison, the order
`sort.Strings` sorts by. -/
def charsLe : List Char → List Char → Bool
  | [], _ => true
  | _ :: _, [] => false
  | a :: as, b :: bs =>
    if a < b then true else if b < a then false else charsLe as bs

/-- String comparison used by the model of `sort.Strings`. -/
def strLe (a b : String) : Bool := charsLe a.data b.data

def indent : String := "  "

def banner : String :=
  "// Code generated by 'make coder/scripts/apitypings/main.go'. DO NOT EDIT.\n\n"

/-- `Generator.posLine`: `// From codersdk/<file>` plus newline
(`filepath.Join("codersdk", filepath.Base(file.Name()))`; file names are stored
as base names). -/
def posLine (file : String) : String :=
  "// From codersdk/" ++ file ++ "\n"

/-- `indentedComment`: two-space indent, then `// <comment>`. -/
def indentedComment (comment : String) : String :=
  indent ++ "// " ++ comment

mutual

/-- The closed set of `go/types` type descriptors the generator dispatches on.
`basic` carries the flags the Go code reads: `Info()&IsNumeric`,
`Info()&IsBoolean`, and `Kind() == types.Byte`. -/
inductive GoType where
  | basic (name : String) (isNumeric isBoolean isByteKind : Bool)
  | struct (fields : List GoField)
  | map (key value : GoType)
  | slice (elem : GoType)
  | array (size : Nat) (elem : GoType)
  | named (qualified objName : String) (under : GoType)
  | pointer (elem : GoType)
  | iface (isEmpty : Bool) (embeds : List GoType)
  | signature
  | typeParam (paramName : String) (constraint : GoType)
  | union (terms : List GoType)
deriving Repr

/-- One struct field: name, type, `Embedded()`, `Pkg().Name()`, and the parsed
`json` / `typescript` tags (each `some (name, options)` when present). -/
inductive GoField where
  | mk (name : String) (ty : GoType) (embedded : Bool) (pkgName : String)
       (jsonTag : Option (String × List String))
       (typescriptTag : Option (String × List String))
deriving Repr

end

def GoField.name : GoField → String
  | .mk n _ _ _ _ _ => n

def GoField.ty : GoField → GoType
  | .mk _ t _ _ _ _ => t

def GoField.embedded : GoField → Bool
  | .mk _ _ e _ _ _ => e

def GoField.pkgName : GoField → String
  | .mk _ _ _ p _ _ => p

def GoField.jsonTag : GoField → Option (String × List String)
  | .mk _ _ _ _ j _ => j

def GoField.typescriptTag : GoField → Option (String × List String)
  | .mk _ _ _ _ _ t => t

/-- `Type.Underlying()`.  A `named`'s stored underlying is already resolved
(see header), so one step suffices; every other descriptor is its own
underlying. -/
def GoType.underlyingType : GoType → GoType
  | .named _ _ u => u
  | t => t

mutual

/-- `types.Type.String()`, to the extent the generator's error messages and
comparisons need it (`struct`/`interface` bodies abbreviated; never branched
on except the exact literal `"byte"` for basic types, which is faithful). -/
def GoType.typeString : GoType → String
  | .basic n _ _ _ => n
  | .struct _ => "struct\x7b...\x7d"
  | .map k v => "map[" ++ k.typeString ++ "]" ++ v.typeString
  | .slice e => "[]" ++ e.typeString
  | .array n e => "[" ++ toString n ++ "]" ++ e.typeString
  | .named q _ _ => q
  | .pointer e => "*" ++ e.typeString
  | .iface _ _ => "interface\x7b...\x7d"
  | .signature => "func(...)"
  | .typeParam n _ => n
  | .union ts => strIntercalate "|" (typeStringList ts)

def typeStringList : List GoType → List String
  | [] => []
  | t :: ts => t.typeString :: typeStringList ts

end

/-- The `TypescriptType` result struct of the Go source, verbatim fields. -/
structure TypescriptType where
  GenericMapping : String
  ValueType : String
  AboveTypeLine : String
  Optional : Bool
deriving Repr, DecidableEq

/-- The annotation of a `map[K]V` mapping: the key's annotation, a separating
newline when both sides are annotated, then the value's annotation (verbatim
from the `*types.Map` case of `typescriptType`). -/
def mapAboveLine (keyType valueType : TypescriptType) : String :=
  (if keyType.AboveTypeLine != "" && valueType.AboveTypeLine != ""
   then keyType.AboveTypeLine ++ "\n"
   else keyType.AboveTypeLine) ++ valueType.AboveTypeLine

/-- `Generator.typescriptType`, the Type Mapper: one Go type to one
TypeScript type expression.  `localNames` models
`g.pkg.Types.Scope().Lookup` (the names of every package-level object). -/
def typescriptType (localNames : List String) : GoType → Except String TypescriptType
  | .basic nm isNum isBool isByteK =>
    if isNum then .ok ⟨"", "number", "", false⟩
    else if isBool then .ok ⟨"", "boolean", "", false⟩
    else if isByteK then
      .ok ⟨"", "number", indentedComment "This is a byte in golang", false⟩
    else .ok ⟨"", nm, "", false⟩
  | .struct _ =>
    .ok ⟨"", "any",
      indentedComment "Embedded anonymous struct, please fix by naming it" ++ "\n" ++
        indentedComment "eslint-disable-next-line @typescript-eslint/no-explicit-any",
      false⟩
  | .map k v =>
    match typescriptType localNames k with
    | .error e => .error ("map key: " ++ e)
    | .ok keyType =>
      match typescriptType localNames v with
      | .error e => .error ("map key: " ++ e)
      | .ok valueType =>
        .ok ⟨"", "Record<" ++ keyType.ValueType ++ ", " ++ valueType.ValueType ++ ">",
             mapAboveLine keyType valueType, false⟩
  | .slice elem =>
    if elem.typeString == "byte" then .ok ⟨"", "string", "", false⟩
    else
      match typescriptType localNames elem with
      | .error e => .error ("array: " ++ e)
      | .ok u => .ok ⟨"", u.ValueType ++ "[]", u.AboveTypeLine, false⟩
  | .array _ elem =>
    if elem.typeString == "byte" then .ok ⟨"", "string", "", false⟩
    else
      match typescriptType localNames elem with
      | .error e => .error ("array: " ++ e)
      | .ok u => .ok ⟨"", u.ValueType ++ "[]", u.AboveTypeLine, false⟩
  | .named q o u =>
    if q == "net/url.URL" then .ok ⟨"", "string", "", false⟩
    else if q == "time.Time" then .ok ⟨"", "string", "", false⟩
    else if q == "database/sql.NullTime" then .ok ⟨"", "string", "", true⟩
    else if q == "github.com/coder/coder/codersdk.NullTime" then .ok ⟨"", "string", "", true⟩
    else if q == "github.com/google/uuid.NullUUID" then .ok ⟨"", "string", "", true⟩
    else if q == "github.com/google/uuid.UUID" then .ok ⟨"", "string", "", false⟩
    else if localNames.contains o then .ok ⟨"", o, "", false⟩
    else
      match u with
      | .struct _ =>
        .ok ⟨"", "any",
          indentedComment ("Named type \"" ++ q ++ "\" unknown, using \"any\"") ++ "\n" ++
            indentedComment "eslint-disable-next-line @typescript-eslint/no-explicit-any",
          false⟩
      | _ =>
        match typescriptType localNames u with
        | .error e => .error ("named underlying: " ++ e)
        | .ok ts =>
          .ok { ts with AboveTypeLine :=
            indentedComment ("This is likely an enum in an external package (\"" ++ q ++ "\")") }
  | .pointer elem =>
    match typescriptType localNames elem with
    | .error e => .error ("pointer: " ++ e)
    | .ok resp => .ok { resp with Optional := true }
  | .iface isEmpty _ =>
    if isEmpty then .ok ⟨"", "any", indentedComment "eslint-disable-next-line", false⟩
    else .error "only empty interface types are supported"
  | .typeParam pn c =>
    match c.underlyingType with
    | .iface _ _ =>
      let nm := c.typeString
      let nm := if strStartsWith nm "github.com/coder/coder/codersdk."
                then strDrop nm "github.com/coder/coder/codersdk.".data.length else nm
      .ok ⟨pn, nm, "", false⟩
    | _ => .error "type param must be an interface"
  | .signature => .error ("unknown type: " ++ GoType.signature.typeString)
  | .union ts => .error ("unknown type: " ++ (GoType.union ts).typeString)

/-- The first `tags.Get("json")` step of the `buildStruct` field loop: the
`omitempty` check reads exactly `len(Options) > 0 && Options[0] == "omitempty"`. -/
def hasOmitempty (f : GoField) : Bool :=
  match f.jsonTag with
  | some (_, opts) => opts.head? == some "omitempty"
  | none => false

/-- The per-field front half of the `buildStruct` loop, in the Go order:
json tag (skip on `json:"-"`), name fallback, type inference (may fail),
then the `typescript` tag override (skip on `typescript:"-"`, replace the
whole mapping on a non-empty name, clear `Optional` on the `notnull` option).
Returns `none` for a skipped field. -/
def fieldBase (localNames : List String) (f : GoField) :
    Except String (Option (String × Bool × TypescriptType)) :=
  let jsonName0 := match f.jsonTag with
    | some (n, _) => n
    | none => ""
  let jsonOptional := hasOmitempty f
  if jsonName0 == "-" then .ok none
  else
    let jsonName := if jsonName0 == "" then f.name else jsonName0
    match typescriptType localNames f.ty with
    | .error e => .error ("typescript type: " ++ e)
    | .ok tsType0 =>
      match f.typescriptTag with
      | some (tn, topts) =>
        if tn == "-" then .ok none
        else
          let ts1 := if tn != "" then
              ({ GenericMapping := "", ValueType := tn, AboveTypeLine := "",
                 Optional := false } : TypescriptType)
            else tsType0
          let ts2 := if topts.head? == some "notnull" then { ts1 with Optional := false } else ts1
          .ok (some (jsonName, jsonOptional, ts2))
      | none => .ok (some (jsonName, jsonOptional, tsType0))

/-- The `"?"` suffix decision: `jsonOptional || tsType.Optional`. -/
def fieldOptionalMark (jsonOptional : Bool) (ts : TypescriptType) : String :=
  if jsonOptional || ts.Optional then "?" else ""

/-- One rendered field line, `  readonly <name><?>: <type>`; the value type is
the generic symbol when the mapping carries one. -/
def mkFieldLine (jsonName : String) (jsonOptional : Bool) (ts : TypescriptType) : String :=
  indent ++ "readonly " ++ jsonName ++ fieldOptionalMark jsonOptional ts ++ ": " ++
    (if ts.GenericMapping != "" then ts.GenericMapping else ts.ValueType)

/-- The `extendedFields` predicate of `buildStruct`: embedded, no `json` tag
(`reflect.StructTag.Get("json") == ""`, i.e. the tag is absent), declared in
the `codersdk` package. -/
def isExtended (f : GoField) : Bool :=
  f.embedded && f.jsonTag.isNone && f.pkgName == "codersdk"

/-- The mutable locals of the `buildStruct` field loop. -/
structure FieldAccum where
  fieldLines : List String
  generics : List String
  genericsUsed : List (String × String)
  aboveLine : String
deriving Repr

/-- The loop-body state update for one kept field: the `AboveLine` overwrite,
the generics bookkeeping, and the appended field line. -/
def fieldAccumStep (acc : FieldAccum) (jsonName : String) (jsonOpt : Bool)
    (ts : TypescriptType) : FieldAccum :=
  let acc1 := if ts.AboveTypeLine != "" then { acc with aboveLine := ts.AboveTypeLine }
              else acc
  let acc2 :=
    if ts.GenericMapping != "" then
      if (acc1.genericsUsed.lookup ts.GenericMapping).isNone then
        { acc1 with
          generics := acc1.generics ++ [ts.GenericMapping ++ " extends " ++ ts.ValueType],
          genericsUsed := acc1.genericsUsed ++ [(ts.GenericMapping, ts.ValueType)] }
      else
        { acc1 with genericsUsed := acc1.genericsUsed ++ [(ts.GenericMapping, ts.ValueType)] }
    else acc1
  { acc2 with fieldLines := acc2.fieldLines ++ [mkFieldLine jsonName jsonOpt ts] }

/-- The `buildStruct` field loop: skip extended fields, run `fieldBase`,
apply `fieldAccumStep` for each kept field. -/
def processFields (localNames : List String) :
    List GoField → FieldAccum → Except String FieldAccum
  | [], acc => .ok acc
  | f :: fs, acc =>
    if isExtended f then processFields localNames fs acc
    else
      match fieldBase localNames f with
      | .error e => .error e
      | .ok none => processFields localNames fs acc
      | .ok (some (jsonName, jsonOpt, ts)) =>
        processFields localNames fs (fieldAccumStep acc jsonName jsonOpt ts)

/-- `structTemplateState`, verbatim. -/
structure structTemplateState where
  PosLine : String
  Name : String
  Fields : List String
  Generics : List String
  Extends : String
  AboveLine : String
deriving Repr

/-- Execution of `structTemplate` on a state: Go's `text/template` with the
given template literal produces exactly this concatenation (`{{ if }}` on a
slice/string is "non-empty"). -/
def renderStruct (st : structTemplateState) : String :=
  st.PosLine ++
  (if st.AboveLine != "" then st.AboveLine ++ "\n" else "") ++
  "export interface " ++ st.Name ++
  (if st.Generics != [] then "<" ++ strIntercalate ", " st.Generics ++ ">" else "") ++
  (if st.Extends != "" then " extends " ++ st.Extends else "") ++
  " \x7b\n" ++ strIntercalate "\n" st.Fields ++ "\n\x7d\n"

/-- The extends-clause names: one per extended field, in declaration order. -/
def extendsNames (fields : List GoField) : List String :=
  (fields.filter (fun f => isExtended f)).map GoField.name

/-- `Generator.buildStruct`. -/
def buildStruct (localNames : List String) (objName fileName : String)
    (fields : List GoField) : Except String String :=
  match processFields localNames fields ⟨[], [], [], ""⟩ with
  | .error e => .error e
  | .ok acc =>
    let ext := extendsNames fields
    .ok (renderStruct
      { PosLine := posLine fileName
        Name := objName
        Fields := acc.fieldLines
        Generics := acc.generics
        Extends := if ext != [] then strIntercalate ", " ext else ""
        AboveLine := acc.aboveLine })

/-- `types.Union.String()`, to the extent `buildUnion`'s error message needs
it (tildes dropped). -/
def unionString (terms : List GoType) : String :=
  strIntercalate "|" (terms.map GoType.typeString)

/-- The `buildUnion` term loop: collect each term's value type, OR the
optional flags, abort on the first mapping failure. -/
def unionTypes (localNames : List String) : List GoType → Except String (List String × Bool)
  | [] => .ok ([], false)
  | t :: ts =>
    match typescriptType localNames t with
    | .error e => .error e
    | .ok s =>
      match unionTypes localNames ts with
      | .error e => .error e
      | .ok (rest, opt) => .ok (s.ValueType :: rest, s.Optional || opt)

/-- `Generator.buildUnion`. -/
def buildUnion (localNames : List String) (objName fileName : String)
    (terms : List GoType) : Except String String :=
  match unionTypes localNames terms with
  | .error e =>
    .error ("union \"" ++ unionString terms ++ "\" for \"" ++ objName ++
      "\" failed to get type: " ++ e)
  | .ok (allTypes, optional) =>
    .ok (posLine fileName ++ "export type " ++ objName ++ (if optional then "?" else "") ++
      " = " ++ strIntercalate " | " allTypes ++ "\n")

/-- A package-level object of the scanned package's scope: a type declaration
(`*types.TypeName`, carrying the named type's resolved underlying), a constant
(`*types.Const`, carrying the name of its named type when it has one, plus
`Val().String()`), a package variable, or a function. -/
inductive GoObject where
  | typeName (name fileName : String) (under : GoType)
  | constDecl (name : String) (typeNameRef : Option String) (valLit : String)
  | varDecl (name : String)
  | funcDecl (name : String)
deriving Repr

def GoObject.name : GoObject → String
  | .typeName n _ _ => n
  | .constDecl n _ _ => n
  | .varDecl n => n
  | .funcDecl n => n

/-- `sort.Strings`, as Mathlib's insertion sort under the byte-wise
(= code-point-wise, both sides ASCII here) string order. -/
def sortStrings (l : List String) : List String :=
  List.insertionSort (fun a b => strLe a b = true) l

/-- The capture of the `@typescript-ignore[:]?(.*)` regex on one comment's
text: everything after the first occurrence (colon consumed when present) up
to the end of that line (`.` does not cross newlines), split on commas and
space-trimmed — empty capture contributes nothing, exactly as the Go guard
`matches[ignored] != ""` does. -/
def ignoreLine (text : String) : List String :=
  match afterFirst "@typescript-ignore".data text.data with
  | none => []
  | some after =>
    let after := if after.take 1 == [':'] then after.drop 1 else after
    let captured := after.takeWhile (fun c => c != '\n')
    if captured == [] then []
    else (splitCommas captured).map (fun cs => strTrim ⟨cs⟩)

/-- The ignore set: the union of every comment's directive entries. -/
def ignoreSet (comments : List String) : List String :=
  comments.flatMap ignoreLine

/-- The four mutable collections of `generateAll` (`structs`, `generics`,
`enums` as name-and-file, `enumConsts` as flat base-name/value pairs). -/
structure GenState where
  structs : List (String × String)
  generics : List (String × String)
  enums : List (String × String)
  enumConsts : List (String × String)
deriving Repr

/-- One iteration of the `generateAll` scope loop: skip ignored names, then
dispatch on the object and, for type names, on the underlying shape.  Shapes
outside the switch abort with `unsupported named type %q`. -/
def processObj (localNames ignored : List String) (st : GenState) :
    GoObject → Except String GenState
  | obj =>
    if ignored.contains obj.name then .ok st
    else
      match obj with
      | .typeName n file under =>
        match under with
        | .struct fields =>
          match buildStruct localNames n file fields with
          | .error e => .error ("generate \"" ++ n ++ "\": " ++ e)
          | .ok block => .ok { st with structs := st.structs ++ [(n, block)] }
        | .basic .. => .ok { st with enums := st.enums ++ [(n, file)] }
        | .map k v =>
          match typescriptType localNames (.map k v) with
          | .error e => .error ("(map) generate \"" ++ n ++ "\": " ++ e)
          | .ok ts =>
            let block := posLine file ++
              (if ts.AboveTypeLine != "" then ts.AboveTypeLine ++ "\n" else "") ++
              "export type " ++ n ++ " = " ++ ts.ValueType ++ "\n"
            .ok { st with structs := st.structs ++ [(n, block)] }
        | .slice _ => .ok st
        | .array _ _ => .ok st
        | .iface _ embeds =>
          match embeds with
          | [e] =>
            let terms := match e with
              | .union ts => ts
              | t => [t]
            match buildUnion localNames n file terms with
            | .error e2 => .error ("generate union \"" ++ n ++ "\": " ++ e2)
            | .ok block => .ok { st with generics := st.generics ++ [(n, block)] }
          | _ => .ok st
        | .signature => .ok st
        | other => .error ("unsupported named type \"" ++ other.typeString ++ "\"")
      | .constDecl _ tyRef lit =>
        match tyRef with
        | some tn => .ok { st with enumConsts := st.enumConsts ++ [(tn, lit)] }
        | none => .ok st
      | .varDecl _ => .ok st
      | .funcDecl _ => .ok st

/-- The whole scope loop. -/
def processObjs (localNames ignored : List String) (st : GenState) :
    List GoObject → Except String GenState
  | [] => .ok st
  | o :: os =>
    match processObj localNames ignored st o with
    | .error e => .error e
    | .ok st' => processObjs localNames ignored st' os

/-- One enum code block: position line, then the accumulated constant
literals sorted ascending and joined as a union. -/
def buildEnumBlock (fileName name : String) (values : List String) : String :=
  posLine fileName ++ "export type " ++ name ++ " = " ++
    strIntercalate " | " (sortStrings values) ++ "\n"

/-- The "write all enums" pass after the scope loop. -/
def buildEnums (st : GenState) : List (String × String) :=
  st.enums.map (fun p =>
    let values := (st.enumConsts.filter (fun q => q.1 == p.1)).map Prod.snd
    (p.1, buildEnumBlock p.2 p.1 values))

/-- `TypescriptTypes`: the three output buckets. -/
structure TypescriptTypes where
  Types : List (String × String)
  Enums : List (String × String)
  Generics : List (String × String)
deriving Repr

/-- `Generator.generateAll`. -/
def generateAll (comments : List String) (objs : List GoObject) :
    Except String TypescriptTypes :=
  let ignored := ignoreSet comments
  let localNames := objs.map GoObject.name
  match processObjs localNames ignored ⟨[], [], [], []⟩ objs with
  | .error e => .error e
  | .ok st => .ok ⟨st.structs, buildEnums st, st.generics⟩

/-- Go map indexing `m[k]` (zero value `""` when absent). -/
def lookupD (m : List (String × String)) (k : String) : String :=
  match m.lookup k with
  | some v => v
  | none => ""

/-- One bucket of the output document: keys sorted, each key's block followed
by one newline. -/
def bucketOut (m : List (String × String)) : String :=
  strJoin ((sortStrings (m.map Prod.fst)).map (fun k => lookupD m k ++ "\n"))

/-- `strings.TrimRight(s, "\n")`. -/
def trimNewlinesRight (s : String) : String :=
  strDropRightWhile s (fun c => c == '\n')

/-- `TypescriptTypes.String`, the Output Assembler: banner, then the three
buckets each in sorted-key order, trailing newlines trimmed. -/
def TypescriptTypes.render (t : TypescriptTypes) : String :=
  trimNewlinesRight (banner ++ bucketOut t.Types ++ bucketOut t.Enums ++ bucketOut t.Generics)

/-- The identifiers keyed in the intermediate collections that become output
blocks. -/
def keysOf (st : GenState) : List String :=
  st.structs.map Prod.fst ++ st.generics.map Prod.fst ++ st.enums.map Prod.fst

/-- Success test for the mapper's `Except`. -/
def isOkB : Except String TypescriptType → Bool
  | .ok _ => true
  | .error _ => false

/-- The exact failure condition of the Type Mapper, computed recursively: a
(reachable) non-empty interface, a type parameter whose constraint's
underlying is not an interface, or a shape wholly outside the mapper's switch
(function signature, bare union term list). -/
def hasMappingFailure (localNames : List String) : GoType → Bool
  | .basic .. => false
  | .struct _ => false
  | .map k v => hasMappingFailure localNames k || hasMappingFailure localNames v
  | .slice e =>
    if e.typeString == "byte" then false else hasMappingFailure localNames e
  | .array _ e =>
    if e.typeString == "byte" then false else hasMappingFailure localNames e
  | .named q o u =>
    if q == "net/url.URL" then false
    else if q == "time.Time" then false
    else if q == "database/sql.NullTime" then false
    else if q == "github.com/coder/coder/codersdk.NullTime" then false
    else if q == "github.com/google/uuid.NullUUID" then false
    else if q == "github.com/google/uuid.UUID" then false
    else if localNames.contains o then false
    else
      match u with
      | .struct _ => false
      | _ => hasMappingFailure localNames u
  | .pointer e => hasMappingFailure localNames e
  | .iface isEmpty _ => !isEmpty
  | .typeParam _ c =>
    match c.underlyingType with
    | .iface _ _ => false
    | _ => true
  | .signature => true
  | .union _ => true

/-- The field line the loop emits for one field; `none` when the field is
extended (rendered via `extends`) or skipped by a `-` tag. -/
def fieldLineOf (lN : List String) (f : GoField) : Option String :=
  if isExtended f then none
  else
    match fieldBase lN f with
    | .ok (some (n, j, ts)) => some (mkFieldLine n j ts)
    | _ => none

/-- The annotation a field offers to the block's `AboveLine` slot; `none`
when the field is extended or skipped. -/
def fieldAnnOf (lN : List String) (f : GoField) : Option String :=
  if isExtended f then none
  else
    match fieldBase lN f with
    | .ok (some (_, _, ts)) => some ts.AboveTypeLine
    | _ => none

/-- The underlying shapes that fall through every arm of the `generateAll`
type switch (the Go `default:` case). -/
def unsupportedShape : GoType → Bool
  | .named .. => true
  | .pointer _ => true
  | .typeParam .. => true
  | .union _ => true
  | _ => false

/-! ## Order lemmas for the sort relation -/

theorem charsLe_cons (a b : Char) (as bs : List Char) :
    charsLe (a :: as) (b :: bs) = true ↔ (a < b ∨ (a = b ∧ charsLe as bs = true)) := by
  simp only [charsLe]
  rcases lt_trichotomy a b with h | h | h
  · simp [h]
  · subst h
    simp [lt_irrefl]
  · have h1 : ¬ a < b := not_lt_of_gt h
    have h2 : a ≠ b := Ne.symm (ne_of_lt h)
    simp [h1, h, h2]

theorem charsLe_total : ∀ (as bs : List Char), charsLe as bs = true ∨ charsLe bs as = true
  | [], _ => .inl rfl
  | _ :: _, [] => .inr rfl
  | a :: as, b :: bs => by
    rcases lt_trichotomy a b with h | h | h
    · exact .inl ((charsLe_cons ..).mpr (.inl h))
    · subst h
      rcases charsLe_total as bs with h | h
      · exact .inl ((charsLe_cons ..).mpr (.inr ⟨rfl, h⟩))
      · exact .inr ((charsLe_cons ..).mpr (.inr ⟨rfl, h⟩))
    · exact .inr ((charsLe_cons ..).mpr (.inl h))

theorem charsLe_trans : ∀ (as bs cs : List Char),
    charsLe as bs = true → charsLe bs cs = true → charsLe as cs = true
  | [], _, _, _, _ => rfl
  | _ :: _, [], _, h, _ => by simp [charsLe] at h
  | _ :: _, _ :: _, [], _, h => by simp [charsLe] at h
  | a :: as, b :: bs, c :: cs, h1, h2 => by
    rcases (charsLe_cons ..).mp h1 with hab | ⟨hab, hab'⟩
    · rcases (charsLe_cons ..).mp h2 with hbc | ⟨hbc, hbc'⟩
      · exact (charsLe_cons ..).mpr (.inl (lt_trans hab hbc))
      · exact (charsLe_cons ..).mpr (.inl (hbc ▸ hab))
    · rcases (charsLe_cons ..).mp h2 with hbc | ⟨hbc, hbc'⟩
      · exact (charsLe_cons ..).mpr (.inl (hab ▸ hbc))
      · exact (charsLe_cons ..).mpr (.inr ⟨hab.trans hbc, charsLe_trans as bs cs hab' hbc'⟩)

theorem charsLe_antisymm : ∀ (as bs : List Char),
    charsLe as bs = true → charsLe bs as = true → as = bs
  | [], [], _, _ => rfl
  | [], _ :: _, _, h => by simp [charsLe] at h
  | _ :: _, [], h, _ => by simp [charsLe] at h
  | a :: as, b :: bs, h1, h2 => by
    rcases (charsLe_cons ..).mp h1 with hab | ⟨hab, hab'⟩
    · rcases (charsLe_cons ..).mp h2 with hba | ⟨hba, hba'⟩
      · exact absurd (lt_trans hab hba) (lt_irrefl a)
      · exact absurd hab (hba ▸ lt_irrefl b)
    · rcases (charsLe_cons ..).mp h2 with hba | ⟨hba, hba'⟩
      · exact absurd hba (hab ▸ lt_irrefl a)
      · rw [hab, charsLe_antisymm as bs hab' hba']

instance : IsTotal String (fun a b => strLe a b = true) :=
  ⟨fun a b => charsLe_total a.data b.data⟩

instance : IsTrans String (fun a b => strLe a b = true) :=
  ⟨fun a b c => charsLe_trans a.data b.data c.data⟩

instance : IsAntisymm String (fun a b => strLe a b = true) :=
  ⟨fun a b h1 h2 => by
    cases a with
    | mk da =>
      cases b with
      | mk db => exact congrArg String.mk (charsLe_antisymm da db h1 h2)⟩

theorem sortStrings_sorted (l : List String) :
    (sortStrings l).Sorted (fun a b => strLe a b = true) :=
  List.sorted_insertionSort _ l

theorem sortStrings_perm (l : List String) : (sortStrings l).Perm l :=
  List.perm_insertionSort _ l

theorem sortStrings_eq_of_perm {l l' : List String} (h : l.Perm l') :
    sortStrings l = sortStrings l' :=
  List.eq_of_perm_of_sorted ((sortStrings_perm l).trans (h.trans (sortStrings_perm l').symm))
    (sortStrings_sorted l) (sortStrings_sorted l')

/-- Key sequences of the rendered buckets are strictly ascending: pairwise
`≤` together with pairwise distinctness. -/
theorem sortStrings_strict (l : List String) (h : l.Nodup) :
    (sortStrings l).Pairwise (fun a b => strLe a b = true ∧ a ≠ b) := by
  have hs := sortStrings_sorted l
  have hn : (sortStrings l).Nodup := (sortStrings_perm l).symm.nodup h
  exact hs.imp₂ (fun a b h1 h2 => ⟨h1, h2⟩) hn

/-! ## Type Mapper lemmas -/

/-- A successful pointer mapping is always optional (the dereference forces
`Optional := true`). -/
theorem typescriptType_pointer_opt {lN : List String} {t : GoType} {ts : TypescriptType}
    (h : typescriptType lN (.pointer t) = .ok ts) : ts.Optional = true := by
  simp only [typescriptType] at h
  cases hE : typescriptType lN t with
  | error e => rw [hE] at h; cases h
  | ok r => rw [hE] at h; injection h with h; rw [← h]

/-- The mapper succeeds exactly when `hasMappingFailure` finds no failing
constituent. -/
theorem typescriptType_ok_iff (lN : List String) :
    ∀ t : GoType, isOkB (typescriptType lN t) = !hasMappingFailure lN t
  | .basic nm a b c => by
    simp only [typescriptType, hasMappingFailure]
    split <;> (try split) <;> (try split) <;> rfl
  | .struct fs => rfl
  | .map k v => by
    have hk := typescriptType_ok_iff lN k
    have hv := typescriptType_ok_iff lN v
    simp only [typescriptType, hasMappingFailure]
    cases hK : typescriptType lN k with
    | error e => rw [hK] at hk; simp [isOkB] at hk ⊢; simp [← hk]
    | ok r =>
      rw [hK] at hk
      cases hV : typescriptType lN v with
      | error e => rw [hV] at hv; simp [isOkB] at hk hv ⊢; simp [← hk, ← hv]
      | ok r2 => rw [hV] at hv; simp [isOkB] at hk hv; simp [isOkB, hk, hv]
  | .slice e => by
    have he := typescriptType_ok_iff lN e
    simp only [typescriptType, hasMappingFailure]
    cases hb : e.typeString == "byte" with
    | true => simp [hb, isOkB]
    | false =>
      simp only [hb, Bool.false_eq_true, if_false]
      cases hE : typescriptType lN e with
      | error e2 => rw [hE] at he; simp [isOkB] at he ⊢; simp [← he]
      | ok r => rw [hE] at he; simp [isOkB] at he ⊢; simp [← he]
  | .array n e => by
    have he := typescriptType_ok_iff lN e
    simp only [typescriptType, hasMappingFailure]
    cases hb : e.typeString == "byte" with
    | true => simp [hb, isOkB]
    | false =>
      simp only [hb, Bool.false_eq_true, if_false]
      cases hE : typescriptType lN e with
      | error e2 => rw [hE] at he; simp [isOkB] at he ⊢; simp [← he]
      | ok r => rw [hE] at he; simp [isOkB] at he ⊢; simp [← he]
  | .named q o u => by
    have hu := typescriptType_ok_iff lN u
    simp only [typescriptType, hasMappingFailure]
    split
    · rfl
    · split
      · rfl
      · split
        · rfl
        · split
          · rfl
          · split
            · rfl
            · split
              · rfl
              · split
                · rfl
                · cases u <;> try rfl
                  all_goals
                    (simp only []
                     cases hU : typescriptType lN _ with
                     | error e2 => rw [hU] at hu; simp [isOkB] at hu ⊢; simp [← hu]
                     | ok r => rw [hU] at hu; simp [isOkB] at hu ⊢; simp [← hu])
  | .pointer e => by
    have he := typescriptType_ok_iff lN e
    simp only [typescriptType, hasMappingFailure]
    cases hE : typescriptType lN e with
    | error e2 => rw [hE] at he; simp [isOkB] at he ⊢; simp [← he]
    | ok r => rw [hE] at he; simp [isOkB] at he ⊢; simp [← he]
  | .iface isEmpty embeds => by
    simp only [typescriptType, hasMappingFailure]
    cases isEmpty <;> simp [isOkB]
  | .typeParam pn c => by
    simp only [typescriptType, hasMappingFailure]
    cases c.underlyingType <;> simp [isOkB]
  | .signature => rfl
  | .union ts => rfl

/-! ## Struct Renderer lemmas -/

/-- With no `typescript` tag, `fieldBase` returns the raw mapper result and
the json `omitempty` flag. -/
theorem fieldBase_no_override {lN : List String} {f : GoField} {n : String} {jopt : Bool}
    {ts : TypescriptType} (hts : f.typescriptTag = none)
    (h : fieldBase lN f = .ok (some (n, jopt, ts))) :
    jopt = hasOmitempty f ∧ typescriptType lN f.ty = .ok ts := by
  have step : ∀ (jsonName0 : String),
      (if (jsonName0 == "-") = true then
          (Except.ok none : Except String (Option (String × Bool × TypescriptType)))
        else
          match typescriptType lN f.ty with
          | .error e => .error ("typescript type: " ++ e)
          | .ok tsType0 =>
            Except.ok (some (if (jsonName0 == "") = true then f.name else jsonName0,
              hasOmitempty f, tsType0))) = .ok (some (n, jopt, ts)) →
      jopt = hasOmitempty f ∧ typescriptType lN f.ty = .ok ts := by
    intro jsonName0 hstep
    by_cases hdash : (jsonName0 == "-") = true
    · rw [if_pos hdash] at hstep; cases hstep
    · rw [if_neg hdash] at hstep
      cases hT : typescriptType lN f.ty with
      | error e => rw [hT] at hstep; cases hstep
      | ok ts0 =>
        rw [hT] at hstep
        simp only [Except.ok.injEq, Option.some.injEq, Prod.mk.injEq] at hstep
        obtain ⟨h1, h2, h3⟩ := hstep
        exact ⟨h2.symm, congrArg Except.ok h3⟩
  apply step (match f.jsonTag with | some (n, _) => n | none => "")
  rw [← h]
  simp only [fieldBase, hts]

theorem fieldAccumStep_fieldLines (acc : FieldAccum) (n : String) (j : Bool)
    (ts : TypescriptType) :
    (fieldAccumStep acc n j ts).fieldLines = acc.fieldLines ++ [mkFieldLine n j ts] := by
  unfold fieldAccumStep
  by_cases h1 : (ts.AboveTypeLine != "") = true <;>
    by_cases h2 : (ts.GenericMapping != "") = true <;>
      simp [h1, h2, apply_ite FieldAccum.fieldLines]

theorem fieldAccumStep_aboveLine (acc : FieldAccum) (n : String) (j : Bool)
    (ts : TypescriptType) :
    (fieldAccumStep acc n j ts).aboveLine =
      if (ts.AboveTypeLine != "") = true then ts.AboveTypeLine else acc.aboveLine := by
  unfold fieldAccumStep
  by_cases h1 : (ts.AboveTypeLine != "") = true <;>
    by_cases h2 : (ts.GenericMapping != "") = true <;>
      simp [h1, h2, apply_ite FieldAccum.aboveLine]

/-- The field-line list out of the loop: the input lines followed by one line
per kept field, in declaration order. -/
theorem processFields_fieldLines (lN : List String) :
    ∀ (fields : List GoField) (acc acc' : FieldAccum),
      processFields lN fields acc = .ok acc' →
      acc'.fieldLines = acc.fieldLines ++ fields.filterMap (fieldLineOf lN)
  | [], acc, acc', h => by
    injection h with h
    subst h
    simp
  | f :: fs, acc, acc', h => by
    unfold processFields at h
    by_cases hx : isExtended f = true
    · rw [if_pos hx] at h
      have ih := processFields_fieldLines lN fs acc acc' h
      rw [ih]
      simp [fieldLineOf, hx]
    · rw [if_neg hx] at h
      cases hF : fieldBase lN f with
      | error e => rw [hF] at h; cases h
      | ok r =>
        rw [hF] at h
        cases r with
        | none =>
          have ih := processFields_fieldLines lN fs acc acc' h
          rw [ih]
          simp [fieldLineOf, hx, hF]
        | some trip =>
          obtain ⟨n, j, ts⟩ := trip
          have ih := processFields_fieldLines lN fs _ acc' h
          rw [ih, fieldAccumStep_fieldLines]
          simp [fieldLineOf, hx, hF]

/-- The `AboveLine` slot out of the loop: each kept field's non-empty
annotation overwrites the previous value. -/
theorem processFields_aboveLine (lN : List String) :
    ∀ (fields : List GoField) (acc acc' : FieldAccum),
      processFields lN fields acc = .ok acc' →
      acc'.aboveLine =
        (fields.filterMap (fieldAnnOf lN)).foldl
          (fun a s => if (s != "") = true then s else a) acc.aboveLine
  | [], acc, acc', h => by
    injection h with h
    subst h
    rfl
  | f :: fs, acc, acc', h => by
    unfold processFields at h
    by_cases hx : isExtended f = true
    · rw [if_pos hx] at h
      have ih := processFields_aboveLine lN fs acc acc' h
      rw [ih]
      simp [fieldAnnOf, hx]
    · rw [if_neg hx] at h
      cases hF : fieldBase lN f with
      | error e => rw [hF] at h; cases h
      | ok r =>
        rw [hF] at h
        cases r with
        | none =>
          have ih := processFields_aboveLine lN fs acc acc' h
          rw [ih]
          simp [fieldAnnOf, hx, hF]
        | some trip =>
          obtain ⟨n, j, ts⟩ := trip
          have ih := processFields_aboveLine lN fs _ acc' h
          rw [ih, fieldAccumStep_aboveLine]
          simp [fieldAnnOf, hx, hF]

/-! ## Classifier key-tracking lemmas -/

theorem keysOf_structs_append {st : GenState} {n b k : String}
    (hk : k ∈ keysOf { st with structs := st.structs ++ [(n, b)] }) :
    k ∈ keysOf st ∨ k = n := by
  simp only [keysOf, List.map_append, List.mem_append, List.map_cons, List.map_nil,
    List.mem_singleton] at hk ⊢
  tauto

theorem keysOf_generics_append {st : GenState} {n b k : String}
    (hk : k ∈ keysOf { st with generics := st.generics ++ [(n, b)] }) :
    k ∈ keysOf st ∨ k = n := by
  simp only [keysOf, List.map_append, List.mem_append, List.map_cons, List.map_nil,
    List.mem_singleton] at hk ⊢
  tauto

theorem keysOf_enums_append {st : GenState} {n b k : String}
    (hk : k ∈ keysOf { st with enums := st.enums ++ [(n, b)] }) :
    k ∈ keysOf st ∨ k = n := by
  simp only [keysOf, List.map_append, List.mem_append, List.map_cons, List.map_nil,
    List.mem_singleton] at hk ⊢
  tauto

/-- One classifier step only ever adds the processed object's (non-ignored)
name as a key. -/
theorem processObj_keys {lN ign : List String} {st st' : GenState} {o : GoObject}
    (h : processObj lN ign st o = .ok st') :
    ∀ k ∈ keysOf st', k ∈ keysOf st ∨ (k = o.name ∧ ign.contains o.name = false) := by
  intro k hk
  unfold processObj at h
  by_cases hig : ign.contains o.name = true
  · rw [if_pos hig] at h
    injection h with h
    subst h
    exact .inl hk
  · have hig' : ign.contains o.name = false := by
      cases hcc : ign.contains o.name
      · rfl
      · exact absurd hcc hig
    rw [if_neg hig] at h
    cases o with
    | typeName n file under =>
      cases under with
      | basic bn b1 b2 b3 =>
        dsimp only at h
        injection h with h
        subst h
        rcases keysOf_enums_append hk with h2 | h2
        · exact .inl h2
        · exact .inr ⟨h2, hig'⟩
      | struct fields =>
        dsimp only at h
        cases hB : buildStruct lN n file fields with
        | error e => rw [hB] at h; cases h
        | ok block =>
          rw [hB] at h
          injection h with h
          subst h
          rcases keysOf_structs_append hk with h2 | h2
          · exact .inl h2
          · exact .inr ⟨h2, hig'⟩
      | map kt vt =>
        dsimp only at h
        cases hT : typescriptType lN (.map kt vt) with
        | error e => rw [hT] at h; cases h
        | ok ts =>
          rw [hT] at h
          injection h with h
          subst h
          rcases keysOf_structs_append hk with h2 | h2
          · exact .inl h2
          · exact .inr ⟨h2, hig'⟩
      | slice e =>
        dsimp only at h
        injection h with h
        subst h
        exact .inl hk
      | array sz e =>
        dsimp only at h
        injection h with h
        subst h
        exact .inl hk
      | iface isE embeds =>
        cases embeds with
        | nil =>
          dsimp only at h
          injection h with h
          subst h
          exact .inl hk
        | cons e0 rest =>
          cases rest with
          | cons e1 rest2 =>
            dsimp only at h
            injection h with h
            subst h
            exact .inl hk
          | nil =>
            dsimp only at h
            generalize (match e0 with | GoType.union ts => ts | t => [t]) = terms at h
            cases hB : buildUnion lN n file terms with
            | error e2 => rw [hB] at h; cases h
            | ok block =>
              rw [hB] at h
              injection h with h
              subst h
              rcases keysOf_generics_append hk with h2 | h2
              · exact .inl h2
              · exact .inr ⟨h2, hig'⟩
      | signature =>
        dsimp only at h
        injection h with h
        subst h
        exact .inl hk
      | named q onm u => dsimp only at h; cases h
      | pointer e => dsimp only at h; cases h
      | typeParam pn c => dsimp only at h; cases h
      | union ts => dsimp only at h; cases h
    | constDecl cn tyRef lit =>
      cases tyRef with
      | some tn =>
        dsimp only at h
        injection h with h
        subst h
        exact .inl hk
      | none =>
        dsimp only at h
        injection h with h
        subst h
        exact .inl hk
    | varDecl vn =>
      dsimp only at h
      injection h with h
      subst h
      exact .inl hk
    | funcDecl fn =>
      dsimp only at h
      injection h with h
      subst h
      exact .inl hk

/-- Key tracking over the whole pass. -/
theorem processObjs_keys {lN ign : List String} :
    ∀ (objs : List GoObject) (st st' : GenState),
      processObjs lN ign st objs = .ok st' →
      ∀ k ∈ keysOf st', k ∈ keysOf st ∨ ign.contains k = false
  | [], st, st', h => by
    injection h with h
    subst h
    exact fun k hk => .inl hk
  | o :: os, st, st', h => by
    unfold processObjs at h
    cases hO : processObj lN ign st o with
    | error e => rw [hO] at h; cases h
    | ok st1 =>
      rw [hO] at h
      intro k hk
      rcases processObjs_keys os st1 st' h k hk with h1 | h1
      · rcases processObj_keys hO k h1 with h2 | ⟨h2, h3⟩
        · exact .inl h2
        · exact .inr (h2 ▸ h3)
      · exact .inr h1

theorem buildEnums_keys (st : GenState) :
    (buildEnums st).map Prod.fst = st.enums.map Prod.fst := by
  simp [buildEnums, List.map_map, Function.comp]

/-! ## Claim theorems -/

/-- C1 (counterexample): a pointer-typed field tagged `typescript:",notnull"`
renders without the `?` optional marker — its rendered block contains no `?`
at all — even though the Type Mapper maps the pointer type optional. -/
theorem C1_counterexample :
    buildStruct [] "Foo" "x.go"
        [GoField.mk "Ptr" (.pointer (.basic "int" true false false)) false "codersdk"
          none (some ("", ["notnull"]))] =
      .ok "// From codersdk/x.go\nexport interface Foo \x7b\n  readonly Ptr: number\n\x7d\n"
    ∧ ("// From codersdk/x.go\nexport interface Foo \x7b\n  readonly Ptr: number\n\x7d\n".data.contains '?')
        = false
    ∧ typescriptType [] (.pointer (.basic "int" true false false)) =
        .ok ⟨"", "number", "", true⟩ :=
  ⟨rfl, by decide, rfl⟩

/-- C1 (amended): in the absence of a `typescript` struct-tag override, a
field's rendered optional marker is `?` exactly when its json tag carries
`omitempty` or the Type Mapper marks its mapped type optional, and a
pointer-typed field always renders optional. -/
theorem C1_optionality (lN : List String) (f : GoField) (n : String)
    (jopt : Bool) (ts : TypescriptType)
    (hts : f.typescriptTag = none)
    (h : fieldBase lN f = .ok (some (n, jopt, ts))) :
    (fieldOptionalMark jopt ts = "?" ↔ (hasOmitempty f = true ∨ ts.Optional = true))
    ∧ (∀ pt : GoType, f.ty = .pointer pt → fieldOptionalMark jopt ts = "?") := by
  obtain ⟨hj, hmap⟩ := fieldBase_no_override hts h
  subst hj
  constructor
  · have hne : ("" : String) ≠ "?" := by decide
    cases ho : hasOmitempty f <;> cases hopt : ts.Optional <;>
      simp [fieldOptionalMark, ho, hopt, hne]
  · intro pt hpt
    rw [hpt] at hmap
    have hO := typescriptType_pointer_opt hmap
    simp [fieldOptionalMark, hO]

/-- Witness for C1: the untagged pointer field `Ptr *int` maps optional and
renders with `?`. -/
theorem C1_witness :
    (fieldOptionalMark false ⟨"", "number", "", true⟩ = "?" ↔
        (hasOmitempty (GoField.mk "Ptr" (.pointer (.basic "int" true false false)) false
            "codersdk" none none) = true ∨
          TypescriptType.Optional ⟨"", "number", "", true⟩ = true))
    ∧ (∀ pt : GoType,
        (GoField.mk "Ptr" (.pointer (.basic "int" true false false)) false
            "codersdk" none none).ty = .pointer pt →
        fieldOptionalMark false ⟨"", "number", "", true⟩ = "?") :=
  C1_optionality [] (GoField.mk "Ptr" (.pointer (.basic "int" true false false)) false
    "codersdk" none none) "Ptr" false ⟨"", "number", "", true⟩ rfl rfl

/-- C2 (counterexample): an enum base with no constants renders
`export type Color = ` with a trailing space, and `strings.TrimRight(s, "\n")`
leaves that space in place — trailing whitespace is not fully trimmed. -/
theorem C2_counterexample :
    (generateAll [] [.typeName "Color" "e.go" (.basic "string" false false false)]).map
        TypescriptTypes.render =
      .ok "// Code generated by 'make coder/scripts/apitypings/main.go'. DO NOT EDIT.\n\n// From codersdk/e.go\nexport type Color = "
    ∧ ("// Code generated by 'make coder/scripts/apitypings/main.go'. DO NOT EDIT.\n\n// From codersdk/e.go\nexport type Color = ".data.getLast?)
        = some ' ' :=
  ⟨rfl, by decide⟩

/-- C2 (amended): the assembled document is the banner followed by the three
buckets in the fixed order records, enums, generic-unions, with trailing
newlines (only) trimmed; within each bucket the emitted key sequence is a
strictly ascending permutation of that bucket's keys. -/
theorem C2_assembly (t : TypescriptTypes)
    (h1 : (t.Types.map Prod.fst).Nodup) (h2 : (t.Enums.map Prod.fst).Nodup)
    (h3 : (t.Generics.map Prod.fst).Nodup) :
    t.render =
      trimNewlinesRight (banner ++ bucketOut t.Types ++ bucketOut t.Enums ++ bucketOut t.Generics)
    ∧ (sortStrings (t.Types.map Prod.fst)).Pairwise (fun a b => strLe a b = true ∧ a ≠ b)
    ∧ (sortStrings (t.Enums.map Prod.fst)).Pairwise (fun a b => strLe a b = true ∧ a ≠ b)
    ∧ (sortStrings (t.Generics.map Prod.fst)).Pairwise (fun a b => strLe a b = true ∧ a ≠ b)
    ∧ (sortStrings (t.Types.map Prod.fst)).Perm (t.Types.map Prod.fst)
    ∧ (sortStrings (t.Enums.map Prod.fst)).Perm (t.Enums.map Prod.fst)
    ∧ (sortStrings (t.Generics.map Prod.fst)).Perm (t.Generics.map Prod.fst) :=
  ⟨rfl, sortStrings_strict _ h1, sortStrings_strict _ h2, sortStrings_strict _ h3,
   sortStrings_perm _, sortStrings_perm _, sortStrings_perm _⟩

/-- Witness for C2 at a concrete three-bucket value. -/
theorem C2_witness :
    TypescriptTypes.render ⟨[("B", "tb"), ("A", "ta")], [("E", "te")], [("G", "tg")]⟩ =
      trimNewlinesRight (banner ++ bucketOut [("B", "tb"), ("A", "ta")] ++
        bucketOut [("E", "te")] ++ bucketOut [("G", "tg")])
    ∧ (sortStrings ["B", "A"]).Pairwise (fun a b => strLe a b = true ∧ a ≠ b)
    ∧ (sortStrings ["E"]).Pairwise (fun a b => strLe a b = true ∧ a ≠ b)
    ∧ (sortStrings ["G"]).Pairwise (fun a b => strLe a b = true ∧ a ≠ b)
    ∧ (sortStrings ["B", "A"]).Perm ["B", "A"]
    ∧ (sortStrings ["E"]).Perm ["E"]
    ∧ (sortStrings ["G"]).Perm ["G"] :=
  C2_assembly ⟨[("B", "tb"), ("A", "ta")], [("E", "te")], [("G", "tg")]⟩
    (by decide) (by decide) (by decide)

/-- C3: every identifier named by an `@typescript-ignore` comment directive is
absent from all three buckets of a successful run. -/
theorem C3_ignored_excluded (comments : List String) (objs : List GoObject) (id : String)
    (t : TypescriptTypes) (hid : id ∈ ignoreSet comments)
    (hgen : generateAll comments objs = .ok t) :
    id ∉ t.Types.map Prod.fst ∧ id ∉ t.Enums.map Prod.fst ∧ id ∉ t.Generics.map Prod.fst := by
  have hcont : (ignoreSet comments).contains id = true := by simpa using hid
  unfold generateAll at hgen
  dsimp only at hgen
  cases hP : processObjs (objs.map GoObject.name) (ignoreSet comments) ⟨[], [], [], []⟩ objs with
  | error e => rw [hP] at hgen; cases hgen
  | ok st =>
    rw [hP] at hgen
    injection hgen with hgen
    subst hgen
    have hkeys := processObjs_keys objs _ st hP
    have hmain : id ∉ keysOf st := by
      intro hin
      rcases hkeys id hin with hcase | hcase
      · simp [keysOf] at hcase
      · rw [hcont] at hcase; cases hcase
    refine ⟨?_, ?_, ?_⟩
    · intro hin
      exact hmain (List.mem_append_left _ (List.mem_append_left _ hin))
    · intro hin
      rw [buildEnums_keys] at hin
      exact hmain (List.mem_append_right _ hin)
    · intro hin
      exact hmain (List.mem_append_left _ (List.mem_append_right _ hin))

/-- Witness for C3: `Foo` is ignored, so only `Bar` is emitted. -/
theorem C3_witness :
    "Foo" ∉ ([("Bar", "// From codersdk/a.go\nexport interface Bar \x7b\n\n\x7d\n")].map
        (Prod.fst (α := String) (β := String)))
    ∧ "Foo" ∉ ([] : List (String × String)).map Prod.fst
    ∧ "Foo" ∉ ([] : List (String × String)).map Prod.fst :=
  C3_ignored_excluded ["// @typescript-ignore: Foo"]
    [.typeName "Foo" "a.go" (.struct []), .typeName "Bar" "a.go" (.struct [])] "Foo"
    ⟨[("Bar", "// From codersdk/a.go\nexport interface Bar \x7b\n\n\x7d\n")], [], []⟩
    (by decide) rfl

/-- C4 (counterexample): a map descriptor — one of the seven variants, and
none of the three shapes the claim allows to fail — is rejected when its
value type is a non-empty interface. -/
theorem C4_counterexample :
    typescriptType [] (.map (.basic "string" false false false) (.iface false [])) =
      .error "map key: only empty interface types are supported"
    ∧ isOkB (typescriptType [] (.map (.basic "string" false false false) (.iface false [])))
        = false :=
  ⟨rfl, rfl⟩

/-- C4 (amended): the Type Mapper fails exactly when a recursively reached
constituent is a non-empty interface, a type parameter whose constraint's
underlying is not an interface, or a shape outside its switch; a structurally
anonymous record does not fail — it maps to `any` with a fix-me annotation. -/
theorem C4_failure_characterization :
    (∀ (lN : List String) (t : GoType), isOkB (typescriptType lN t) = !hasMappingFailure lN t)
    ∧ (∀ (lN : List String) (fs : List GoField),
        typescriptType lN (.struct fs) =
          .ok ⟨"", "any",
            indentedComment "Embedded anonymous struct, please fix by naming it" ++ "\n" ++
              indentedComment "eslint-disable-next-line @typescript-eslint/no-explicit-any",
            false⟩) :=
  ⟨fun lN t => typescriptType_ok_iff lN t, fun _ _ => rfl⟩

/-- C5 (counterexample): a top-level `type ID []byte` declaration produces no
block at all — the run's buckets are empty and the rendered document is just
the banner. -/
theorem C5_counterexample :
    generateAll [] [.typeName "ID" "id.go" (.slice (.basic "byte" true false true))] =
      .ok ⟨[], [], []⟩
    ∧ TypescriptTypes.render ⟨[], [], []⟩ =
        "// Code generated by 'make coder/scripts/apitypings/main.go'. DO NOT EDIT." :=
  ⟨rfl, rfl⟩

/-- C5 (amended): a top-level declaration whose underlying is a slice is
skipped without error or output; only a `[]byte` occurring as a field type is
mapped to `string`. -/
theorem C5_slice_skipped :
    (∀ (lN ign : List String) (st : GenState) (n file : String) (e : GoType),
        processObj lN ign st (.typeName n file (.slice e)) = .ok st)
    ∧ (∀ lN : List String,
        typescriptType lN (.slice (.basic "byte" true false true)) =
          .ok ⟨"", "string", "", false⟩) := by
  constructor
  · intro lN ign st n file e
    unfold processObj
    by_cases hig : ign.contains (GoObject.typeName n file (.slice e)).name = true
    · rw [if_pos hig]
    · rw [if_neg hig]
  · intro lN
    rfl

/-- C6: an enum block lists its constant literals sorted ascending; the block
is invariant under any permutation of the declaration order of the constants,
and the emitted value list is a sorted permutation of the accumulated one. -/
theorem C6_enum_sorted (fileName nm : String) (values values' : List String)
    (h : values.Perm values') :
    buildEnumBlock fileName nm values = buildEnumBlock fileName nm values'
    ∧ (sortStrings values).Sorted (fun a b => strLe a b = true)
    ∧ (sortStrings values).Perm values := by
  refine ⟨?_, sortStrings_sorted _, sortStrings_perm _⟩
  unfold buildEnumBlock
  rw [sortStrings_eq_of_perm h]

/-- Witness for C6: `Color` with `"blue"`, `"red"`, `"green"` declared in any
order renders `"blue" | "green" | "red"`. -/
theorem C6_witness :
    (buildEnumBlock "e.go" "Color" ["\"blue\"", "\"red\"", "\"green\""] =
        buildEnumBlock "e.go" "Color" ["\"red\"", "\"green\"", "\"blue\""]
      ∧ (sortStrings ["\"blue\"", "\"red\"", "\"green\""]).Sorted (fun a b => strLe a b = true)
      ∧ (sortStrings ["\"blue\"", "\"red\"", "\"green\""]).Perm ["\"blue\"", "\"red\"", "\"green\""])
    ∧ buildEnumBlock "e.go" "Color" ["\"blue\"", "\"red\"", "\"green\""] =
        "// From codersdk/e.go\nexport type Color = \"blue\" | \"green\" | \"red\"\n" :=
  ⟨C6_enum_sorted "e.go" "Color" ["\"blue\"", "\"red\"", "\"green\""]
      ["\"red\"", "\"green\"", "\"blue\""] (by decide), rfl⟩

/-- C7 (counterexample): a declaration `type Zed *int` aborts the run, but
the error message names only the underlying shape `*int`, not the identifier
`Zed`. -/
theorem C7_counterexample :
    generateAll [] [.typeName "Zed" "z.go" (.pointer (.basic "int" true false false))] =
      .error "unsupported named type \"*int\""
    ∧ containsSub "unsupported named type \"*int\"" "Zed" = false :=
  ⟨rfl, by decide⟩

/-- C7 (amended): a non-ignored declaration whose underlying shape falls
outside the supported switch aborts the classifier with an error naming that
shape (only), and a failed pass yields an errored run with no document. -/
theorem C7_unsupported_aborts :
    (∀ (lN ign : List String) (st : GenState) (n file : String) (u : GoType),
        unsupportedShape u = true → ign.contains n = false →
        processObj lN ign st (.typeName n file u) =
          .error ("unsupported named type \"" ++ u.typeString ++ "\""))
    ∧ (∀ (comments : List String) (objs : List GoObject) (e : String),
        processObjs (objs.map GoObject.name) (ignoreSet comments) ⟨[], [], [], []⟩ objs =
          .error e →
        generateAll comments objs = .error e) := by
  constructor
  · intro lN ign st n file u hu hig
    unfold processObj
    have hig2 : ¬ (ign.contains (GoObject.typeName n file u).name = true) := by
      show ¬ (ign.contains n = true)
      rw [hig]
      simp
    rw [if_neg hig2]
    cases u with
    | named q onm un => rfl
    | pointer e => rfl
    | typeParam pn c => rfl
    | union ts => rfl
    | basic nm b1 b2 b3 => simp [unsupportedShape] at hu
    | struct fs => simp [unsupportedShape] at hu
    | map kt vt => simp [unsupportedShape] at hu
    | slice e => simp [unsupportedShape] at hu
    | array sz e => simp [unsupportedShape] at hu
    | iface isE embeds => simp [unsupportedShape] at hu
    | signature => simp [unsupportedShape] at hu
  · intro comments objs e h
    simp only [generateAll, h]

/-- Witness for C7 at `type Zed *int`. -/
theorem C7_witness :
    processObj [] [] ⟨[], [], [], []⟩
        (.typeName "Zed" "z.go" (.pointer (.basic "int" true false false))) =
      .error ("unsupported named type \"" ++
        (GoType.pointer (.basic "int" true false false)).typeString ++ "\"")
    ∧ generateAll [] [.typeName "Zed" "z.go" (.pointer (.basic "int" true false false))] =
        .error "unsupported named type \"*int\"" :=
  ⟨C7_unsupported_aborts.1 [] [] ⟨[], [], [], []⟩ "Zed" "z.go"
      (.pointer (.basic "int" true false false)) rfl rfl,
   C7_unsupported_aborts.2 [] [.typeName "Zed" "z.go" (.pointer (.basic "int" true false false))]
      "unsupported named type \"*int\"" rfl⟩

/-- C8 (counterexample): a record with two annotated fields keeps only the
second field's annotation: the first field's `eslint` annotation (present in
its own mapping) is overwritten, not concatenated. -/
theorem C8_counterexample :
    buildStruct [] "S" "t.go"
        [GoField.mk "A" (.iface true []) false "codersdk" none none,
         GoField.mk "B" (.named "foo.Bar" "Bar" (.basic "string" false false false)) false
           "codersdk" none none] =
      .ok "// From codersdk/t.go\n  // This is likely an enum in an external package (\"foo.Bar\")\nexport interface S \x7b\n  readonly A: any\n  readonly B: string\n\x7d\n"
    ∧ containsSub "// From codersdk/t.go\n  // This is likely an enum in an external package (\"foo.Bar\")\nexport interface S \x7b\n  readonly A: any\n  readonly B: string\n\x7d\n"
        "eslint" = false
    ∧ typescriptType [] (.iface true []) =
        .ok ⟨"", "any", indentedComment "eslint-disable-next-line", false⟩ :=
  ⟨rfl, by decide, rfl⟩

/-- C8 (amended): a map mapping concatenates its key's and value's
annotations (newline-separated when both are non-empty) and a sequence
inherits its element's annotation, but a record block's annotation slot holds
only the last kept field's non-empty annotation — later fields overwrite
earlier ones. -/
theorem C8_annotations :
    (∀ (lN : List String) (k v : GoType) (tk tv : TypescriptType),
        typescriptType lN k = .ok tk → typescriptType lN v = .ok tv →
        typescriptType lN (.map k v) =
          .ok ⟨"", "Record<" ++ tk.ValueType ++ ", " ++ tv.ValueType ++ ">",
               mapAboveLine tk tv, false⟩)
    ∧ (∀ (lN : List String) (e : GoType) (te : TypescriptType),
        (e.typeString == "byte") = false → typescriptType lN e = .ok te →
        typescriptType lN (.slice e) = .ok ⟨"", te.ValueType ++ "[]", te.AboveTypeLine, false⟩)
    ∧ (∀ (lN : List String) (fields : List GoField) (acc : FieldAccum),
        processFields lN fields ⟨[], [], [], ""⟩ = .ok acc →
        acc.aboveLine =
          (fields.filterMap (fieldAnnOf lN)).foldl
            (fun a s => if (s != "") = true then s else a) "") := by
  refine ⟨?_, ?_, ?_⟩
  · intro lN k v tk tv hk hv
    simp only [typescriptType]
    rw [hk, hv]
  · intro lN e te hb he
    simp only [typescriptType]
    have hb2 : ¬ ((e.typeString == "byte") = true) := by simp [hb]
    rw [if_neg hb2, he]
  · intro lN fields acc h
    simpa using processFields_aboveLine lN fields ⟨[], [], [], ""⟩ acc h

/-- Witness for C8: concrete map/slice/record instances. -/
theorem C8_witness :
    typescriptType [] (.map (.basic "string" false false false) (.iface true [])) =
      .ok ⟨"", "Record<" ++ "string" ++ ", " ++ "any" ++ ">",
           mapAboveLine ⟨"", "string", "", false⟩
             ⟨"", "any", indentedComment "eslint-disable-next-line", false⟩, false⟩
    ∧ typescriptType [] (.slice (.basic "int" true false false)) =
        .ok ⟨"", "number" ++ "[]", "", false⟩
    ∧ FieldAccum.aboveLine
        ⟨["  readonly A: any", "  readonly B: string"], [], [],
         "  // This is likely an enum in an external package (\"foo.Bar\")"⟩ =
      (([GoField.mk "A" (.iface true []) false "codersdk" none none,
         GoField.mk "B" (.named "foo.Bar" "Bar" (.basic "string" false false false)) false
           "codersdk" none none].filterMap (fieldAnnOf [])).foldl
        (fun a s => if (s != "") = true then s else a) "") :=
  ⟨C8_annotations.1 [] (.basic "string" false false false) (.iface true [])
      ⟨"", "string", "", false⟩ ⟨"", "any", indentedComment "eslint-disable-next-line", false⟩
      rfl rfl,
   C8_annotations.2.1 [] (.basic "int" true false false) ⟨"", "number", "", false⟩ rfl rfl,
   C8_annotations.2.2 []
      [GoField.mk "A" (.iface true []) false "codersdk" none none,
       GoField.mk "B" (.named "foo.Bar" "Bar" (.basic "string" false false false)) false
         "codersdk" none none]
      ⟨["  readonly A: any", "  readonly B: string"], [], [],
       "  // This is likely an enum in an external package (\"foo.Bar\")"⟩ rfl⟩

/-- C9 (counterexample): a field carrying `json:"-"` is neither a field line
nor an `extends` entry — "all other fields appear as field lines" fails. -/
theorem C9_counterexample :
    buildStruct ["S", "Base"] "S" "s.go"
        [GoField.mk "Base" (.named "github.com/coder/coder/codersdk.Base" "Base" (.struct []))
           true "codersdk" none none,
         GoField.mk "Hidden" (.basic "string" false false false) false "codersdk"
           (some ("-", [])) none,
         GoField.mk "Vis" (.basic "string" false false false) false "codersdk" none none] =
      .ok "// From codersdk/s.go\nexport interface S extends Base \x7b\n  readonly Vis: string\n\x7d\n"
    ∧ containsSub "// From codersdk/s.go\nexport interface S extends Base \x7b\n  readonly Vis: string\n\x7d\n"
        "Hidden" = false :=
  ⟨rfl, by decide⟩

/-- C9 (amended): the loop's field lines are exactly one line per
non-extended field not skipped by a `-` tag, in declaration order; an
extended field (embedded, untagged, declared in `codersdk`) contributes no
field line and its name is listed in the extends clause. -/
theorem C9_embedding :
    (∀ (lN : List String) (fields : List GoField) (acc : FieldAccum),
        processFields lN fields ⟨[], [], [], ""⟩ = .ok acc →
        acc.fieldLines = fields.filterMap (fieldLineOf lN))
    ∧ (∀ (lN : List String) (f : GoField), isExtended f = true → fieldLineOf lN f = none)
    ∧ (∀ (fields : List GoField) (f : GoField), f ∈ fields → isExtended f = true →
        f.name ∈ extendsNames fields) := by
  refine ⟨?_, ?_, ?_⟩
  · intro lN fields acc h
    simpa using processFields_fieldLines lN fields ⟨[], [], [], ""⟩ acc h
  · intro lN f hx
    simp [fieldLineOf, hx]
  · intro fields f hf hx
    unfold extendsNames
    exact List.mem_map_of_mem _ (List.mem_filter.mpr ⟨hf, hx⟩)

/-- Witness for C9 at the `extends Base` record. -/
theorem C9_witness :
    FieldAccum.fieldLines ⟨["  readonly Vis: string"], [], [], ""⟩ =
      ([GoField.mk "Base"
          (.named "github.com/coder/coder/codersdk.Base" "Base" (.struct []))
          true "codersdk" none none,
        GoField.mk "Hidden" (.basic "string" false false false) false "codersdk"
          (some ("-", [])) none,
        GoField.mk "Vis" (.basic "string" false false false) false "codersdk" none
          none].filterMap (fieldLineOf ["S", "Base"]))
    ∧ fieldLineOf ["S", "Base"]
        (GoField.mk "Base" (.named "github.com/coder/coder/codersdk.Base" "Base" (.struct []))
          true "codersdk" none none) = none
    ∧ (GoField.mk "Base" (.named "github.com/coder/coder/codersdk.Base" "Base" (.struct []))
          true "codersdk" none none).name ∈
        extendsNames
          [GoField.mk "Base" (.named "github.com/coder/coder/codersdk.Base" "Base" (.struct []))
            true "codersdk" none none,
           GoField.mk "Hidden" (.basic "string" false false false) false "codersdk"
             (some ("-", [])) none,
           GoField.mk "Vis" (.basic "string" false false false) false "codersdk" none none] :=
  ⟨C9_embedding.1 ["S", "Base"]
      [GoField.mk "Base" (.named "github.com/coder/coder/codersdk.Base" "Base" (.struct []))
        true "codersdk" none none,
       GoField.mk "Hidden" (.basic "string" false false false) false "codersdk"
         (some ("-", [])) none,
       GoField.mk "Vis" (.basic "string" false false false) false "codersdk" none none]
      ⟨["  readonly Vis: string"], [], [], ""⟩ rfl,
   C9_embedding.2.1 ["S", "Base"]
      (GoField.mk "Base" (.named "github.com/coder/coder/codersdk.Base" "Base" (.struct []))
        true "codersdk" none none) rfl,
   C9_embedding.2.2
      [GoField.mk "Base" (.named "github.com/coder/coder/codersdk.Base" "Base" (.struct []))
        true "codersdk" none none,
       GoField.mk "Hidden" (.basic "string" false false false) false "codersdk"
         (some ("-", [])) none,
       GoField.mk "Vis" (.basic "string" false false false) false "codersdk" none none]
      (GoField.mk "Base" (.named "github.com/coder/coder/codersdk.Base" "Base" (.struct []))
        true "codersdk" none none)
      (List.mem_cons_self _ _) rfl⟩

/-- C10: a non-ignored declaration whose underlying is a map joins the
records bucket as `export type Name = Record<K, V>`, leaving the other
buckets untouched; the assembled document always emits the records bucket
first, then enums, then generic-unions. -/
theorem C10_map_alias (lN ign : List String) (st : GenState) (n file : String)
    (k v : GoType) (tk tv : TypescriptType)
    (hk : typescriptType lN k = .ok tk) (hv : typescriptType lN v = .ok tv)
    (hig : ign.contains n = false) :
    processObj lN ign st (.typeName n file (.map k v)) =
      .ok { st with structs := st.structs ++
        [(n, posLine file ++
             (if (mapAboveLine tk tv != "") = true then mapAboveLine tk tv ++ "\n" else "") ++
             "export type " ++ n ++ " = " ++
             ("Record<" ++ tk.ValueType ++ ", " ++ tv.ValueType ++ ">") ++ "\n")] }
    ∧ (∀ t : TypescriptTypes,
        t.render =
          trimNewlinesRight
            (banner ++ bucketOut t.Types ++ bucketOut t.Enums ++ bucketOut t.Generics)) := by
  constructor
  · unfold processObj
    have hig2 : ¬ (ign.contains (GoObject.typeName n file (.map k v)).name = true) := by
      show ¬ (ign.contains n = true)
      rw [hig]
      simp
    rw [if_neg hig2]
    dsimp only
    have hmap : typescriptType lN (.map k v) =
        .ok ⟨"", "Record<" ++ tk.ValueType ++ ", " ++ tv.ValueType ++ ">",
             mapAboveLine tk tv, false⟩ := by
      simp only [typescriptType]
      rw [hk, hv]
    rw [hmap]
  · intro t
    rfl

/-- Witness for C10 at `type StringMap map[string]string`. -/
theorem C10_witness :
    processObj [] [] ⟨[], [], [], []⟩
        (.typeName "StringMap" "m.go"
          (.map (.basic "string" false false false) (.basic "string" false false false))) =
      .ok { (⟨[], [], [], []⟩ : GenState) with structs := ([] : List (String × String)) ++
        [("StringMap", posLine "m.go" ++
            (if (mapAboveLine ⟨"", "string", "", false⟩ ⟨"", "string", "", false⟩ != "") = true
             then mapAboveLine ⟨"", "string", "", false⟩ ⟨"", "string", "", false⟩ ++ "\n"
             else "") ++
            "export type " ++ "StringMap" ++ " = " ++
            ("Record<" ++ "string" ++ ", " ++ "string" ++ ">") ++ "\n")] }
    ∧ (∀ t : TypescriptTypes,
        t.render =
          trimNewlinesRight
            (banner ++ bucketOut t.Types ++ bucketOut t.Enums ++ bucketOut t.Generics)) :=
  C10_map_alias [] [] ⟨[], [], [], []⟩ "StringMap" "m.go"
    (.basic "string" false false false) (.basic "string" false false false)
    ⟨"", "string", "", false⟩ ⟨"", "string", "", false⟩ rfl rfl rfl
